import Mathlib

/-!
Verification of the lazycpp library (src/include/lazycpp.hpp).

Shallow embedding conventions:
- A producer (`std::function<T()>`) may have side effects on captured state and
  may throw.  We model it as a world-state transformer `σ → Except ε T × σ`:
  applied to a world it returns either a value or an error, together with the
  world after any side effects performed before returning or throwing.
- `VariantLazy<T>` holds `std::variant<value_type, evaluator_type>` in its
  `storage` member; we mirror this with the `Storage` sum.
- `NotLazy<T>` holds a plain stored value.
- Each mutating member function becomes a function returning the new object
  state; `do_deref` also threads the world (the producer runs in it).
- `SharedLazy<T>` holds a `std::shared_ptr<LazyConcept<T>>`; we model the heap
  of shared instances as `Nat → Concept σ ε T` and a handle as an address, so
  that handle copies alias the same cell.
-/

namespace lazycpp

/-- The content of the `std::variant<value_type, evaluator_type>` member of
`VariantLazy`: either the computed value or the stored producer. -/
inductive Storage (σ ε T : Type) where
  | value : T → Storage σ ε T
  | producer : (σ → Except ε T × σ) → Storage σ ε T

/-- `VariantLazy<T>`: the deferred strategy; its single data member is the
tagged union `storage`. -/
structure VariantLazy (σ ε T : Type) where
  storage : Storage σ ε T

/-- The `VariantLazy(evaluator_type evaluator)` constructor: stores the
producer without invoking it. -/
def VariantLazy.ofProducer (p : σ → Except ε T × σ) : VariantLazy σ ε T :=
  ⟨Storage.producer p⟩

/-- `VariantLazy::isEvaluated`: `std::holds_alternative<value_type>(storage)`. -/
def VariantLazy.isEvaluated (l : VariantLazy σ ε T) : Bool :=
  match l.storage with
  | Storage.value _ => true
  | Storage.producer _ => false

/-- `VariantLazy::do_deref`: if not evaluated, call the stored producer and
assign its result to `storage` (the assignment does not happen when the
producer throws: the exception propagates first), then return the stored
value.  Returns the result (or error), the new object state and the new
world. -/
def VariantLazy.do_deref (l : VariantLazy σ ε T) (w : σ) :
    Except ε T × VariantLazy σ ε T × σ :=
  match l.storage with
  | Storage.value v => (Except.ok v, l, w)
  | Storage.producer p =>
    match p w with
    | (Except.ok v, w') => (Except.ok v, ⟨Storage.value v⟩, w')
    | (Except.error e, w') => (Except.error e, l, w')

/-- `LazyConcept::get_value` (and `operator*`) delegate to `do_deref`. -/
def VariantLazy.get_value (l : VariantLazy σ ε T) (w : σ) :
    Except ε T × VariantLazy σ ε T × σ :=
  l.do_deref w

/-- `VariantLazy::do_reassign`: `storage = value`, unconditionally replacing
whatever alternative the variant held. -/
def VariantLazy.do_reassign (_ : VariantLazy σ ε T) (v : T) : VariantLazy σ ε T :=
  ⟨Storage.value v⟩

/-- The compiler-generated copy of a `VariantLazy`: copies the `storage`
variant (value or producer) into a new, independent object. -/
def VariantLazy.copy (l : VariantLazy σ ε T) : VariantLazy σ ε T :=
  ⟨l.storage⟩

/-- `NotLazy<T>`: the eager strategy; its single data member is the stored
value. -/
structure NotLazy (T : Type) where
  storage : T

/-- `NotLazy::isEvaluated`: always `true`. -/
def NotLazy.isEvaluated (_ : NotLazy T) : Bool :=
  true

/-- `NotLazy::do_deref`: returns the stored value; no state change, no world
effect, no failure. -/
def NotLazy.do_deref (l : NotLazy T) : T :=
  l.storage

/-- `NotLazy::do_reassign`: `storage = value`. -/
def NotLazy.do_reassign (_ : NotLazy T) (v : T) : NotLazy T :=
  ⟨v⟩

/-- A `LazyConcept<T>` instance is (at runtime) one of the two concrete
strategies. -/
inductive Concept (σ ε T : Type) where
  | notLazy : NotLazy T → Concept σ ε T
  | variantLazy : VariantLazy σ ε T → Concept σ ε T

/-- Virtual dispatch of `isEvaluated`. -/
def Concept.isEvaluated : Concept σ ε T → Bool
  | Concept.notLazy l => l.isEvaluated
  | Concept.variantLazy l => l.isEvaluated

/-- Virtual dispatch of `get_value` / `operator*` (both call `do_deref`).
`NotLazy::do_deref` cannot fail and touches neither state nor world. -/
def Concept.get_value : Concept σ ε T → σ → Except ε T × Concept σ ε T × σ
  | Concept.notLazy l, w => (Except.ok l.do_deref, Concept.notLazy l, w)
  | Concept.variantLazy l, w =>
    match l.do_deref w with
    | (r, l', w') => (r, Concept.variantLazy l', w')

/-- Virtual dispatch of `do_reassign` (`operator=`). -/
def Concept.do_reassign : Concept σ ε T → T → Concept σ ε T
  | Concept.notLazy l, v => Concept.notLazy (l.do_reassign v)
  | Concept.variantLazy l, v => Concept.variantLazy (l.do_reassign v)

/-- The operations a caller can perform on a strategy instance through the
`LazyConcept` interface. -/
inductive Op (T : Type) where
  | deref : Op T
  | getValue : Op T
  | reassign : T → Op T
  | isEvaluatedQ : Op T

/-- The state change (object and world) performed by one interface call.
`operator*` and `get_value` both call `do_deref`; `isEvaluated` only reads the
variant tag; a dereference whose producer throws leaves the object as
`do_deref` left it (unchanged) while the exception propagates. -/
def Concept.step (c : Concept σ ε T) (w : σ) : Op T → Concept σ ε T × σ
  | Op.deref => ((c.get_value w).2.1, (c.get_value w).2.2)
  | Op.getValue => ((c.get_value w).2.1, (c.get_value w).2.2)
  | Op.reassign v => (c.do_reassign v, w)
  | Op.isEvaluatedQ => (c, w)

/-- Runs a sequence of interface calls, threading object state and world. -/
def Concept.runOps (c : Concept σ ε T) (w : σ) : List (Op T) → Concept σ ε T × σ
  | [] => (c, w)
  | o :: os => Concept.runOps (c.step w o).1 (c.step w o).2 os

/-- Repeated `get_value` on a `VariantLazy`: returns the list of results of
`n` consecutive calls together with the final object state and world. -/
def VariantLazy.getValueN (l : VariantLazy σ ε T) (w : σ) :
    Nat → List (Except ε T) × VariantLazy σ ε T × σ
  | 0 => ([], l, w)
  | n + 1 =>
    match l.get_value w with
    | (r, l', w') =>
      match VariantLazy.getValueN l' w' n with
      | (rs, l'', w'') => (r :: rs, l'', w'')

/-- Instruments a side-effecting, non-throwing producer `q` with an invocation
counter carried in the world, so that the number of producer invocations is
observable. -/
def countingProducer (q : σ → T × σ) : σ × Nat → Except ε T × (σ × Nat) :=
  fun wn => (Except.ok (q wn.1).1, ((q wn.1).2, wn.2 + 1))

/-- The heap of `std::shared_ptr`-managed strategy instances: a map from
addresses to instances. -/
abbrev Heap (σ ε T : Type) := Nat → Concept σ ε T

/-- `SharedLazy<T>`: its single data member `pimpl` is a shared pointer to the
underlying instance, modelled as a heap address. -/
structure SharedLazy where
  pimpl : Nat

/-- Copying a `SharedLazy` copies the `pimpl` pointer: the copy references the
same underlying instance. -/
def SharedLazy.copy (h : SharedLazy) : SharedLazy :=
  ⟨h.pimpl⟩

/-- `SharedLazy::get_value` (and `operator*`): delegates to the underlying
instance's `get_value`, which may evaluate it in place. -/
def SharedLazy.get_value (h : SharedLazy) (heap : Heap σ ε T) (w : σ) :
    Except ε T × Heap σ ε T × σ :=
  match (heap h.pimpl).get_value w with
  | (r, c', w') => (r, Function.update heap h.pimpl c', w')

/-- `SharedLazy::isEvaluated`: delegates to the underlying instance. -/
def SharedLazy.isEvaluated (h : SharedLazy) (heap : Heap σ ε T) : Bool :=
  (heap h.pimpl).isEvaluated

/-- The complete set of operations the `SharedLazy` class exposes:
`operator*`, `get_value`, `isEvaluated` and copy construction.  There is no
reassignment operation. -/
inductive SOp where
  | deref : SOp
  | getValue : SOp
  | isEvaluatedQ : SOp
  | copyQ : SOp

/-- The heap and world change performed by one `SharedLazy` operation.
`isEvaluated` only reads; copying only duplicates the pointer. -/
def SharedLazy.stepOp (h : SharedLazy) (heap : Heap σ ε T) (w : σ) :
    SOp → Heap σ ε T × σ
  | SOp.deref => ((h.get_value heap w).2.1, (h.get_value heap w).2.2)
  | SOp.getValue => ((h.get_value heap w).2.1, (h.get_value heap w).2.2)
  | SOp.isEvaluatedQ => (heap, w)
  | SOp.copyQ => (heap, w)

/-- Runs a sequence of `SharedLazy` operations, each through an arbitrary
handle (covering the original handle and any copies). -/
def runShared (heap : Heap σ ε T) (w : σ) :
    List (SharedLazy × SOp) → Heap σ ε T × σ
  | [] => (heap, w)
  | ho :: rest =>
    runShared (ho.1.stepOp heap w ho.2).1 (ho.1.stepOp heap w ho.2).2 rest

/-- The producer of test `VariantLazy.EnsureObjectIsEvaluatedOnce`:
a lambda capturing a counter by reference and returning `++counter`.  The
world is the counter. -/
def incCounter : Nat → Nat × Nat :=
  fun counter => (counter + 1, counter + 1)

/-- The producer `build_int` of the test suite: returns `3` with no side
effect. -/
def build_int : Nat → Nat × Nat :=
  fun w => (3, w)

/-- A producer that throws (error `7`) on its first invocation and succeeds
with `5` on later ones, the world recording how often it ran. -/
def failThenSucceed : Nat → Except Nat Nat × Nat :=
  fun n => if n = 0 then (Except.error 7, 1) else (Except.ok 5, n + 1)

/-- A producer that returns `3` without side effects and never fails. -/
def pureThree : Nat → Except Unit Nat × Nat :=
  fun w => (Except.ok 3, w)

/-- A concrete heap whose every cell holds an unevaluated deferred instance
built from the counting instrumentation of `incCounter`. -/
def sharedHeap0 : Heap (Nat × Nat) Unit Nat :=
  fun _ => Concept.variantLazy (VariantLazy.ofProducer (countingProducer incCounter))

/-! Helper lemmas shared by several claims. -/

/-- Once a `VariantLazy` holds a value, repeated `get_value` returns that
value every time and changes neither the object nor the world. -/
theorem getValueN_evaluated (v : T) : ∀ (n : Nat) (w : σ),
    VariantLazy.getValueN (ε := ε) ⟨Storage.value v⟩ w n =
      (List.replicate n (Except.ok v), ⟨Storage.value v⟩, w)
  | 0, _ => rfl
  | n + 1, w => by
    simp [VariantLazy.getValueN, VariantLazy.get_value, VariantLazy.do_deref,
      getValueN_evaluated v n w, List.replicate]

/-- One interface call on an evaluated strategy instance keeps it evaluated
and leaves the world untouched (no producer can run). -/
theorem step_evaluated (c : Concept σ ε T) (w : σ) (o : Op T)
    (h : c.isEvaluated = true) :
    (c.step w o).1.isEvaluated = true ∧ (c.step w o).2 = w := by
  cases o with
  | deref =>
    cases c with
    | notLazy l => exact ⟨rfl, rfl⟩
    | variantLazy l =>
      cases hs : l.storage with
      | value v =>
        simp [Concept.step, Concept.get_value, VariantLazy.do_deref, hs,
          Concept.isEvaluated, VariantLazy.isEvaluated]
      | producer p =>
        simp [Concept.isEvaluated, VariantLazy.isEvaluated, hs] at h
  | getValue =>
    cases c with
    | notLazy l => exact ⟨rfl, rfl⟩
    | variantLazy l =>
      cases hs : l.storage with
      | value v =>
        simp [Concept.step, Concept.get_value, VariantLazy.do_deref, hs,
          Concept.isEvaluated, VariantLazy.isEvaluated]
      | producer p =>
        simp [Concept.isEvaluated, VariantLazy.isEvaluated, hs] at h
  | reassign v =>
    cases c <;>
      simp [Concept.step, Concept.do_reassign, Concept.isEvaluated,
        VariantLazy.do_reassign, VariantLazy.isEvaluated,
        NotLazy.do_reassign, NotLazy.isEvaluated]
  | isEvaluatedQ => exact ⟨h, rfl⟩

/-- Any sequence of interface calls on an evaluated strategy instance keeps
it evaluated and leaves the world untouched. -/
theorem runOps_evaluated (ops : List (Op T)) : ∀ (c : Concept σ ε T) (w : σ),
    c.isEvaluated = true →
    (c.runOps w ops).1.isEvaluated = true ∧ (c.runOps w ops).2 = w := by
  induction ops with
  | nil => exact fun c w h => ⟨h, rfl⟩
  | cons o os ih =>
    intro c w h
    have hs := step_evaluated c w o h
    have hr := ih (c.step w o).1 (c.step w o).2 hs.1
    exact ⟨hr.1, hr.2.trans hs.2⟩

/-- C1: a `VariantLazy` built from a side-effecting producer `q`
(instrumented with an invocation counter) invokes the producer exactly once
over any `N ≥ 1` consecutive `get_value` calls: every one of the `N` calls
returns the same cached value, the final state caches that value, and the
invocation counter ends at `1`. -/
theorem deferred_evaluates_once (q : σ → T × σ) (w : σ) (N : Nat)
    (hN : 1 ≤ N) :
    (VariantLazy.ofProducer (countingProducer (ε := ε) q)).getValueN (w, 0) N =
      (List.replicate N (Except.ok (q w).1),
       ⟨Storage.value (q w).1⟩, ((q w).2, 1)) := by
  cases N with
  | zero => exact absurd hN (by decide)
  | succ n =>
    simp [VariantLazy.getValueN, VariantLazy.get_value, VariantLazy.do_deref,
      VariantLazy.ofProducer, countingProducer,
      getValueN_evaluated (q w).1 n ((q w).2, 1), List.replicate]

/-- Witness for C1: the counter producer of the test suite, two `get_value`
calls starting from counter `0`: both calls return `1`, the counter ends at
`1`, and the instrumented invocation count is `1`. -/
theorem deferred_evaluates_once_witness :
    1 ≤ 2 ∧
    (VariantLazy.ofProducer
        (countingProducer (ε := Unit) incCounter)).getValueN (0, 0) 2 =
      (List.replicate 2 (Except.ok 1), ⟨Storage.value 1⟩, (1, 1)) :=
  ⟨by decide, deferred_evaluates_once incCounter 0 2 (by decide)⟩

/-- C7: a `VariantLazy` constructed from a producer stores the producer
without invoking it — `isEvaluated()` is `false` and the variant holds the
producer — and only a later first dereference invokes it (the dereference
result is the producer's output at the world of that call). -/
theorem deferred_construction_defers (p : σ → Except ε T × σ) :
    (VariantLazy.ofProducer p).isEvaluated = false ∧
    (VariantLazy.ofProducer p).storage = Storage.producer p ∧
    ∀ w v w', p w = (Except.ok v, w') →
      (VariantLazy.ofProducer p).do_deref w =
        (Except.ok v, ⟨Storage.value v⟩, w') := by
  refine ⟨rfl, rfl, fun w v w' h => ?_⟩
  simp [VariantLazy.ofProducer, VariantLazy.do_deref, h]

/-- Witness for C7: the producer returning `3`; after construction the
instance is unevaluated, and the first dereference at world `0` yields `3`. -/
theorem deferred_construction_defers_witness :
    (VariantLazy.ofProducer pureThree).isEvaluated = false ∧
    pureThree 0 = (Except.ok 3, 0) ∧
    (VariantLazy.ofProducer pureThree).do_deref 0 =
      (Except.ok 3, ⟨Storage.value 3⟩, 0) :=
  ⟨(deferred_construction_defers pureThree).1, rfl,
    (deferred_construction_defers pureThree).2.2 0 3 0 rfl⟩

/-- C8: a `NotLazy` constructed from a value stores that value and is
evaluated immediately; `isEvaluated()` is `true` in every state and after
every operation sequence, and dereference returns the stored value directly,
never failing, with no state or world change (no computation occurs). -/
theorem eager_always_evaluated (v : T) (l : NotLazy T) (w : σ)
    (ops : List (Op T)) :
    (NotLazy.mk v).storage = v ∧
    l.isEvaluated = true ∧
    Concept.get_value (σ := σ) (ε := ε) (Concept.notLazy l) w =
      (Except.ok l.storage, Concept.notLazy l, w) ∧
    ((Concept.notLazy (σ := σ) (ε := ε) l).runOps w ops).1.isEvaluated = true :=
  ⟨rfl, rfl, rfl, (runOps_evaluated ops (Concept.notLazy l) w rfl).1⟩

/-- C2: when the producer of an unevaluated `VariantLazy` raises during
dereference, the error propagates unchanged to the caller, the variant still
holds the producer (`isEvaluated()` stays `false`, the instance is
unchanged), and a subsequent dereference invokes the producer again: if that
re-attempt succeeds, the instance transitions to the cached value. -/
theorem producer_error_propagates (p : σ → Except ε T × σ) (w w₂ : σ) (e : ε)
    (h : p w = (Except.error e, w₂)) :
    (VariantLazy.ofProducer p).do_deref w =
      (Except.error e, VariantLazy.ofProducer p, w₂) ∧
    (VariantLazy.ofProducer p).isEvaluated = false ∧
    ∀ w₃ v w₄, p w₃ = (Except.ok v, w₄) →
      (VariantLazy.ofProducer p).do_deref w₃ =
        (Except.ok v, ⟨Storage.value v⟩, w₄) := by
  refine ⟨?_, rfl, fun w₃ v w₄ h₃ => ?_⟩
  · simp [VariantLazy.ofProducer, VariantLazy.do_deref, h]
  · simp [VariantLazy.ofProducer, VariantLazy.do_deref, h₃]

/-- Witness for C2: `failThenSucceed` errors with `7` on the first attempt
(the instance stays unevaluated), then the retry at the new world succeeds
with `5` and caches it. -/
theorem producer_error_propagates_witness :
    failThenSucceed 0 = (Except.error 7, 1) ∧
    (VariantLazy.ofProducer failThenSucceed).do_deref 0 =
      (Except.error 7, VariantLazy.ofProducer failThenSucceed, 1) ∧
    (VariantLazy.ofProducer failThenSucceed).isEvaluated = false ∧
    failThenSucceed 1 = (Except.ok 5, 2) ∧
    (VariantLazy.ofProducer failThenSucceed).do_deref 1 =
      (Except.ok 5, ⟨Storage.value 5⟩, 2) := by
  have h := producer_error_propagates failThenSucceed 0 1 7 rfl
  exact ⟨rfl, h.1, h.2.1, rfl, h.2.2 1 5 2 rfl⟩

/-- C4: after `reassign(v)` on any strategy instance in any state, the
instance is evaluated, `get_value` returns `v` (with no state or world
change), a pending producer is structurally discarded (the deferred variant
now holds exactly the value `v`), and no subsequent operation sequence ever
changes the world — so the discarded producer is never invoked. -/
theorem reassign_overwrites (c : Concept σ ε T) (v : T) (w : σ)
    (ops : List (Op T)) (lv : VariantLazy σ ε T) :
    (c.do_reassign v).isEvaluated = true ∧
    (c.do_reassign v).get_value w = (Except.ok v, c.do_reassign v, w) ∧
    lv.do_reassign v = ⟨Storage.value v⟩ ∧
    ((c.do_reassign v).runOps w ops).2 = w := by
  have he : (c.do_reassign v).isEvaluated = true := by
    cases c <;> rfl
  refine ⟨he, ?_, rfl, (runOps_evaluated ops (c.do_reassign v) w he).2⟩
  cases c <;> rfl

/-- C5: the evaluated state of a deferred instance is terminal — once the
variant holds a value, no sequence of interface operations (dereference,
`get_value`, reassignment, `isEvaluated`) ever makes it hold a producer
again. -/
theorem deferred_evaluated_terminal (l : VariantLazy σ ε T) (w : σ)
    (ops : List (Op T)) (h : l.isEvaluated = true) :
    ((Concept.variantLazy l).runOps w ops).1.isEvaluated = true :=
  (runOps_evaluated ops (Concept.variantLazy l) w h).1

/-- Witness for C5: an evaluated instance holding `3` stays evaluated across
a dereference, a reassignment and an `isEvaluated` query. -/
theorem deferred_evaluated_terminal_witness :
    (VariantLazy.isEvaluated (σ := Nat) (ε := Unit) ⟨Storage.value 3⟩) = true ∧
    ((Concept.variantLazy (σ := Nat) (ε := Unit) ⟨Storage.value 3⟩).runOps 0
        [Op.deref, Op.reassign 5, Op.isEvaluatedQ, Op.getValue]).1.isEvaluated
      = true :=
  ⟨rfl, deferred_evaluated_terminal ⟨Storage.value 3⟩ 0
    [Op.deref, Op.reassign 5, Op.isEvaluatedQ, Op.getValue] rfl⟩

/-- C6: querying `isEvaluated` has no side effect on any strategy instance:
the step it induces leaves the object and the world exactly as they were,
inserting the query before any operation sequence does not change that
sequence's outcome, and the observations `get_value` and `isEvaluated` give
the same results before and after the query. -/
theorem isEvaluated_pure (c : Concept σ ε T) (w : σ) (os : List (Op T)) :
    c.step w Op.isEvaluatedQ = (c, w) ∧
    c.runOps w (Op.isEvaluatedQ :: os) = c.runOps w os ∧
    (c.step w Op.isEvaluatedQ).1.get_value (c.step w Op.isEvaluatedQ).2 =
      c.get_value w ∧
    (c.step w Op.isEvaluatedQ).1.isEvaluated = c.isEvaluated :=
  ⟨rfl, rfl, rfl, rfl⟩

/-- C3: for an unevaluated deferred instance at address `a` wrapped in a
handle `⟨a⟩` with copy `(⟨a⟩ : SharedLazy).copy`: the copy aliases the same
instance; both handles report unevaluated; one `get_value` through the
original evaluates the shared instance (producer invoked once, counter `1`);
afterwards both handles report evaluated, and `get_value` through the copy
returns the same cached value leaving heap and world (in particular the
invocation counter) unchanged. -/
theorem shared_handle_shares_cache (q : σ → T × σ) (w : σ) (a : Nat)
    (heap : Heap (σ × Nat) ε T)
    (h : heap a =
      Concept.variantLazy (VariantLazy.ofProducer (countingProducer q))) :
    SharedLazy.copy ⟨a⟩ = (⟨a⟩ : SharedLazy) ∧
    SharedLazy.isEvaluated ⟨a⟩ heap = false ∧
    SharedLazy.isEvaluated (SharedLazy.copy ⟨a⟩) heap = false ∧
    SharedLazy.get_value ⟨a⟩ heap (w, 0) =
      (Except.ok (q w).1,
       Function.update heap a (Concept.variantLazy ⟨Storage.value (q w).1⟩),
       ((q w).2, 1)) ∧
    SharedLazy.isEvaluated ⟨a⟩
      (Function.update heap a (Concept.variantLazy ⟨Storage.value (q w).1⟩)) =
      true ∧
    SharedLazy.isEvaluated (SharedLazy.copy ⟨a⟩)
      (Function.update heap a (Concept.variantLazy ⟨Storage.value (q w).1⟩)) =
      true ∧
    SharedLazy.get_value (SharedLazy.copy ⟨a⟩)
      (Function.update heap a (Concept.variantLazy ⟨Storage.value (q w).1⟩))
      ((q w).2, 1) =
      (Except.ok (q w).1,
       Function.update heap a (Concept.variantLazy ⟨Storage.value (q w).1⟩),
       ((q w).2, 1)) := by
  refine ⟨rfl, ?_, ?_, ?_, ?_, ?_, ?_⟩
  · simp [SharedLazy.isEvaluated, h, Concept.isEvaluated,
      VariantLazy.ofProducer, VariantLazy.isEvaluated]
  · simp [SharedLazy.isEvaluated, SharedLazy.copy, h, Concept.isEvaluated,
      VariantLazy.ofProducer, VariantLazy.isEvaluated]
  · simp [SharedLazy.get_value, h, Concept.get_value, VariantLazy.do_deref,
      VariantLazy.ofProducer, countingProducer]
  · simp [SharedLazy.isEvaluated, Concept.isEvaluated, VariantLazy.isEvaluated]
  · simp [SharedLazy.isEvaluated, SharedLazy.copy, Concept.isEvaluated,
      VariantLazy.isEvaluated]
  · simp [SharedLazy.get_value, SharedLazy.copy, Concept.get_value,
      VariantLazy.do_deref, Function.update_idem]

/-- Witness for C3: a heap holding the counting version of the test's
counter producer at address `0`; get through the original caches `1` with one
producer invocation, then get through the copy returns `1` with the heap and
the invocation counter unchanged. -/
theorem shared_handle_shares_cache_witness :
    sharedHeap0 0 =
      Concept.variantLazy (VariantLazy.ofProducer (countingProducer incCounter)) ∧
    (SharedLazy.copy ⟨0⟩ = (⟨0⟩ : SharedLazy) ∧
     SharedLazy.isEvaluated ⟨0⟩ sharedHeap0 = false ∧
     SharedLazy.isEvaluated (SharedLazy.copy ⟨0⟩) sharedHeap0 = false ∧
     SharedLazy.get_value ⟨0⟩ sharedHeap0 (0, 0) =
       (Except.ok 1,
        Function.update sharedHeap0 0 (Concept.variantLazy ⟨Storage.value 1⟩),
        (1, 1)) ∧
     SharedLazy.isEvaluated ⟨0⟩
       (Function.update sharedHeap0 0 (Concept.variantLazy ⟨Storage.value 1⟩)) =
       true ∧
     SharedLazy.isEvaluated (SharedLazy.copy ⟨0⟩)
       (Function.update sharedHeap0 0 (Concept.variantLazy ⟨Storage.value 1⟩)) =
       true ∧
     SharedLazy.get_value (SharedLazy.copy ⟨0⟩)
       (Function.update sharedHeap0 0 (Concept.variantLazy ⟨Storage.value 1⟩))
       (1, 1) =
       (Except.ok 1,
        Function.update sharedHeap0 0 (Concept.variantLazy ⟨Storage.value 1⟩),
        (1, 1))) :=
  ⟨rfl, shared_handle_shares_cache incCounter 0 0 sharedHeap0 rfl⟩

/-- One `SharedLazy` operation changes a heap cell only by evaluating an
unevaluated instance in place; every other cell, and every evaluated cell,
is untouched. -/
theorem stepOp_heap_change (h : SharedLazy) (heap : Heap σ ε T) (w : σ)
    (o : SOp) (a : Nat) :
    (h.stepOp heap w o).1 a = heap a ∨
    ((heap a).isEvaluated = false ∧
      ((h.stepOp heap w o).1 a).isEvaluated = true) := by
  have key : ∀ wq : σ, (Function.update heap h.pimpl
      ((heap h.pimpl).get_value wq).2.1) a = heap a ∨
      ((heap a).isEvaluated = false ∧
        ((Function.update heap h.pimpl
          ((heap h.pimpl).get_value wq).2.1) a).isEvaluated = true) := by
    intro wq
    rcases eq_or_ne a h.pimpl with rfl | hne
    · rw [Function.update_same]
      cases hc : heap h.pimpl with
      | notLazy l => left; rfl
      | variantLazy l =>
        cases hs : l.storage with
        | value v =>
          left
          simp [Concept.get_value, VariantLazy.do_deref, hs]
        | producer p =>
          rcases hp : p wq with ⟨r, w'⟩
          cases r with
          | ok v =>
            right
            constructor
            · simp [Concept.isEvaluated, VariantLazy.isEvaluated, hs]
            · simp [Concept.get_value, VariantLazy.do_deref, hs, hp,
                Concept.isEvaluated, VariantLazy.isEvaluated]
          | error e =>
            left
            simp [Concept.get_value, VariantLazy.do_deref, hs, hp]
    · left; rw [Function.update_noteq hne]
  cases o with
  | deref => exact key w
  | getValue => exact key w
  | isEvaluatedQ => exact Or.inl rfl
  | copyQ => exact Or.inl rfl

/-- C9: the `SharedLazy` handle is read-only — its complete operation set
(`operator*`, `get_value`, `isEvaluated`, copy; there is no reassignment)
can change an underlying heap cell only by the one-time transition of an
unevaluated instance to the evaluated state: after any sequence of handle
operations through any handles, every cell is either exactly as before, or
was unevaluated before and is evaluated now.  In particular an
already-evaluated underlying instance is never changed through a handle. -/
theorem shared_handle_read_only (ops : List (SharedLazy × SOp)) :
    ∀ (heap : Heap σ ε T) (w : σ) (a : Nat),
    (runShared heap w ops).1 a = heap a ∨
    ((heap a).isEvaluated = false ∧
      ((runShared heap w ops).1 a).isEvaluated = true) := by
  induction ops with
  | nil => exact fun heap w a => Or.inl rfl
  | cons ho rest ih =>
    intro heap w a
    have h1 := stepOp_heap_change ho.1 heap w ho.2 a
    have h2 := ih (ho.1.stepOp heap w ho.2).1 (ho.1.stepOp heap w ho.2).2 a
    rcases h2 with h2 | h2
    · rcases h1 with h1 | h1
      · exact Or.inl (h2.trans h1)
      · exact Or.inr ⟨h1.1, h2 ▸ h1.2⟩
    · rcases h1 with h1 | h1
      · exact Or.inr ⟨h1 ▸ h2.1, h2.2⟩
      · rw [h1.2] at h2
        exact absurd h2.1 (by simp)

/-- C10: copying a `VariantLazy` duplicates its storage and the copy is
independent: a copy taken before evaluation stays unevaluated when the
original evaluates, and then invokes its own copy of the producer (the
invocation counter reaches `2` — at-most-once is per instance, not across
copies); reassigning a copy of an evaluated instance does not change the
value the original dereferences to. -/
theorem variantLazy_copy_independent (l : VariantLazy σ ε T) (q : σ → T × σ)
    (w : σ) (u v : T) (w₀ : σ) :
    l.copy = l ∧
    (VariantLazy.ofProducer (countingProducer (ε := ε) q)).do_deref (w, 0) =
      (Except.ok (q w).1, ⟨Storage.value (q w).1⟩, ((q w).2, 1)) ∧
    (VariantLazy.ofProducer (countingProducer (ε := ε) q)).copy.isEvaluated =
      false ∧
    (VariantLazy.ofProducer (countingProducer (ε := ε) q)).copy.do_deref
      ((q w).2, 1) =
      (Except.ok (q (q w).2).1, ⟨Storage.value (q (q w).2).1⟩,
       ((q (q w).2).2, 2)) ∧
    ((⟨Storage.value u⟩ : VariantLazy σ ε T).copy.do_reassign v).do_deref w₀ =
      (Except.ok v, ⟨Storage.value v⟩, w₀) ∧
    (⟨Storage.value u⟩ : VariantLazy σ ε T).do_deref w₀ =
      (Except.ok u, ⟨Storage.value u⟩, w₀) :=
  ⟨rfl, rfl, rfl, rfl, rfl, rfl⟩

end lazycpp
